import Mathlib

/-!
Shallow embedding of `src/funowl/ontology_document.py`: the `Import`, `Ontology` and
`OntologyDocument` classes, their grammar-directed constructors, and the two renderers
(functional syntax and RDF triples).  Collaborator types that the file imports from
elsewhere in the package (identifiers, axioms, annotations, prefix declarations, the
functional writer) are modelled from the specification, as marked on each definition.
-/

set_option maxHeartbeats 1000000

/-- RDF node: a URI reference, a blank (anonymous) node — rdflib `BNode()` is modelled as
a deterministic counter carried by the graph — or a literal. -/
inductive NODE where
  | uri (s : String)
  | bnode (k : Nat)
  | lit (s : String)
deriving DecidableEq

/-- An RDF triple (subject, predicate, object). -/
abbrev Triple := NODE × NODE × NODE

/-- rdflib constant `RDF.type`. -/
def rdfType : NODE := .uri "http://www.w3.org/1999/02/22-rdf-syntax-ns#type"

/-- rdflib constant `OWL.Ontology`. -/
def owlOntology : NODE := .uri "http://www.w3.org/2002/07/owl#Ontology"

/-- rdflib constant `OWL.versionIRI`. -/
def owlVersionIRI : NODE := .uri "http://www.w3.org/2002/07/owl#versionIRI"

/-- rdflib constant `OWL.imports`. -/
def owlImports : NODE := .uri "http://www.w3.org/2002/07/owl#imports"

/-- Modelled from the spec: `funowl.identifiers.IRI` is not under `src/`.  Per §3 an
Identifier always carries a resolvable full form; it is modelled by that string.
A Python dataclass instance is always truthy, so optional identifiers are tested
with `Option.isSome` where the source tests truthiness. -/
structure IRIv where
  val : String
deriving DecidableEq

/-- Python `str()` of an `Optional[IRI]`: `str(None)` is the four-character string. -/
def pyStrOptIri : Option IRIv → String
  | none => "None"
  | some i => i.val

/-- Namespace bindings pre-registered on a fresh rdflib graph. -/
def defaultNamespaces : List (String × String) :=
  [("xml", "http://www.w3.org/XML/1998/namespace"),
   ("rdf", "http://www.w3.org/1999/02/22-rdf-syntax-ns#"),
   ("rdfs", "http://www.w3.org/2000/01/rdf-schema#"),
   ("xsd", "http://www.w3.org/2001/XMLSchema#"),
   ("owl", "http://www.w3.org/2002/07/owl#")]

/-- The external graph sink (rdflib `Graph`): an ordered triple store, a fresh
anonymous-node supply, and a namespace registry (spec §6). -/
structure Graph where
  triples : List Triple := []
  counter : Nat := 0
  nsBindings : List (String × String) := defaultNamespaces
deriving DecidableEq

/-- `g.add(t)` appends one triple. -/
def Graph.add (g : Graph) (t : Triple) : Graph :=
  { g with triples := g.triples ++ [t] }

/-- `BNode()`: a freshly generated anonymous node. -/
def Graph.newBNode (g : Graph) : NODE × Graph :=
  (.bnode g.counter, { g with counter := g.counter + 1 })

/-- `namespace_manager.bind(p, u, True, True)`: register a namespace, replacing any
earlier binding of the same short name. -/
def Graph.bind (g : Graph) (p : String) (u : String) : Graph :=
  { g with nsBindings := (g.nsBindings.filter (fun pu => pu.1 != p)) ++ [(p, u)] }

/-- Modelled from the spec: `funowl.annotations.Annotation` is not under `src/`.  An
Annotation is a property identifier with a value, rendered as a single triple attached
to the annotated subject (§3, §4.3). -/
structure AnnotationM where
  prop : IRIv
  value : String
deriving DecidableEq

/-- One slot of an axiom's RDF triple template: a fixed URI, a fixed literal, or the
j-th anonymous node the axiom freshly allocates from the sink. -/
inductive TNode where
  | uriT (s : String)
  | litT (s : String)
  | freshT (j : Nat)
deriving DecidableEq

/-- A templated triple of an axiom's RDF emission. -/
abbrev TTriple := TNode × TNode × TNode

/-- Modelled from the spec: the concrete axiom catalogue (`funowl.axioms` and friends) is
out of scope (§1); an axiom is abstracted by the functional-syntax text it renders and
by the triple template it emits, instantiated with the sink's freshly generated
anonymous nodes ("axioms determine their own subjects", §4.3). -/
structure AxiomM where
  funText : String
  template : List TTriple
  nFresh : Nat
deriving DecidableEq

/-- Instantiate one template slot at anonymous-node base `c`. -/
def TNode.inst (c : Nat) : TNode → NODE
  | .uriT s => .uri s
  | .litT s => .lit s
  | .freshT j => .bnode (c + j)

/-- Instantiate one templated triple at anonymous-node base `c`. -/
def instTriple (c : Nat) (t : TTriple) : Triple :=
  (t.1.inst c, t.2.1.inst c, t.2.2.inst c)

/-- The triples an axiom emits when the sink's anonymous-node counter stands at `c`. -/
def AxiomM.emit (a : AxiomM) (c : Nat) : List Triple :=
  a.template.map (instTriple c)

/-- `axiom.to_rdf(g)`: emit the axiom's triples, consuming its fresh anonymous nodes. -/
def AxiomM.to_rdf (a : AxiomM) (g : Graph) : Graph :=
  { g with triples := g.triples ++ a.emit g.counter, counter := g.counter + a.nFresh }

/-- The value wrapped by an `Import` (dataclass field `iri: Union[Ontology, IRI]`).  A
wrapped Ontology aggregate is consulted only for its identifier (`ontology_iri`, and
spec §3: a non-owning back-reference used only for identifier extraction), so it is
modelled by that optional identifier.  The `imports` builder method can also store
Python `None` itself (the extracted identifier of an identifier-less ontology). -/
inductive ImportVal where
  | ont (oiri : Option IRIv)
  | iriV (i : IRIv)
  | noneV
deriving DecidableEq

/-- A positional argument to `Ontology.__init__`, classified exactly by the runtime
checks the source performs: `isinstance(x, IRI)`, `isinstance_(x, Axiom)`,
`isinstance(x, Import)`.  The modelled argument universe keeps the two isinstance
dimensions independent, so the defensive `not isinstance_(args[0], Axiom)` guard on the
identifier slots is represented by the `iriAxiomA` case. -/
inductive OntArg where
  | iriA (i : IRIv)
  | importA (im : ImportVal)
  | axiomA (a : AxiomM)
  | iriAxiomA (a : AxiomM)
  | otherA (s : String)
deriving DecidableEq

/-- Failures raised by the embedded operations; each case names its source raise site.
The source raises plain `ValueError`/`TypeError`/`AttributeError`; the cases keep the
condition structured instead of the formatted message. -/
inductive Err where
  /-- `ValueError: Unknown argument to Ontology`, carrying the offending key (line 73). -/
  | unknownField (name : String)
  /-- `ValueError: Unrecognized arguments ot Ontology` — the typo is the source's own —
  carrying the unconsumed positional arguments (line 80). -/
  | unrecognizedArguments (rest : List OntArg)
  /-- `TypeError` from `cur_v + v` (line 77): a filled non-list slot is re-given, or
  the keyword names one of the class's own methods, whose bound method supports
  no `+`. -/
  | addTypeError (name : String)
  /-- `ValueError: Ontology cannot have a versionIRI without an ontologyIRI` (line 146). -/
  | invalidVersionWithoutIri
  /-- `AttributeError`: an attribute access on Python `None`. -/
  | noneAttribute
deriving DecidableEq

/-- The `Ontology` aggregate (dataclass fields, lines 50-55). -/
structure Ontology where
  iri : Option IRIv := none
  version : Option IRIv := none
  directlyImportsDocuments : List ImportVal := []
  axioms : List AxiomM := []
  annotations : List AnnotationM := []
deriving DecidableEq

/-- `isinstance(x, Import)`. -/
def OntArg.isImportArg : OntArg → Bool
  | .importA _ => true
  | _ => false

/-- `isinstance_(x, Axiom)`. -/
def OntArg.isAxiomArg : OntArg → Bool
  | .axiomA _ => true
  | .iriAxiomA _ => true
  | _ => false

/-- The axiom value an axiom-kind argument contributes to the axiom slot. -/
def OntArg.axPayload : OntArg → AxiomM
  | .axiomA a => a
  | .iriAxiomA a => a
  | _ => ⟨ "", [], 0⟩

/-- The import value an import-kind argument contributes to the import slot. -/
def OntArg.impPayload : OntArg → ImportVal
  | .importA im => im
  | _ => .noneV

/-- The guard `isinstance(args[0], IRI) and not isinstance_(args[0], Axiom)` on the head
of the argument list (lines 59 and 61): consume the head into an identifier slot when
it is an IRI that is not an Axiom. -/
def popIriNotAxiom (args : List OntArg) : Option IRIv × List OntArg :=
  match args with
  | .iriA i :: rest => (some i, rest)
  | _ => (none, args)

/-- Whether the head guard of `popIriNotAxiom` accepts an argument. -/
def OntArg.isIriNotAxiom : OntArg → Bool
  | .iriA _ => true
  | _ => false

/-- Positional phase of `Ontology.__init__` (lines 58-68): pop at most one
identifier-not-axiom into the identifier slot, at most one further such value into the
version slot, then the leading imports, then the leading axioms.  Returns the partially
initialised aggregate and the unconsumed arguments. -/
def positionalPhase (args : List OntArg) : Ontology × List OntArg :=
  let p1 := popIriNotAxiom args
  let p2 := popIriNotAxiom p1.2
  let imps := p2.2.takeWhile OntArg.isImportArg
  let a3 := p2.2.dropWhile OntArg.isImportArg
  let axs := a3.takeWhile OntArg.isAxiomArg
  let a4 := a3.dropWhile OntArg.isAxiomArg
  ({ iri := p1.1, version := p2.1,
     directlyImportsDocuments := imps.map OntArg.impPayload,
     axioms := axs.map OntArg.axPayload,
     annotations := [] }, a4)

/-- A named argument to `Ontology.__init__`.  Values are modelled at the declared slot
types (the source stores keyword values unchecked, but only well-typed values occur in
the modelled behaviours); `unknownK` stands for any name that is not one of the five
declared dataclass slots — `getattr(self, k, MISSING)` then still finds the bound
method of that name when the class defines one (see `ontologyMethodNames`), and yields
`MISSING` only otherwise. -/
inductive KwField where
  | iriK (v : IRIv)
  | versionK (v : IRIv)
  | importsK (l : List ImportVal)
  | axiomsK (l : List AxiomM)
  | annotationsK (l : List AnnotationM)
  | unknownK (name : String)
deriving DecidableEq

/-- The Python keyword such a field was passed under. -/
def KwField.key : KwField → String
  | .iriK _ => "iri"
  | .versionK _ => "version"
  | .importsK _ => "directlyImportsDocuments"
  | .axiomsK _ => "axioms"
  | .annotationsK _ => "annotations"
  | .unknownK n => n

/-- `kwargs.get('annotations', [])` (line 69): the value under the `annotations` key. -/
def kwAnnotations : List KwField → Option (List AnnotationM)
  | [] => none
  | .annotationsK l :: _ => some l
  | _ :: ks => kwAnnotations ks

/-- The value passed under the `iri` keyword, when any. -/
def kwIri : List KwField → Option IRIv
  | [] => none
  | .iriK v :: _ => some v
  | _ :: ks => kwIri ks

/-- The value passed under the `version` keyword, when any. -/
def kwVersion : List KwField → Option IRIv
  | [] => none
  | .versionK v :: _ => some v
  | _ :: ks => kwVersion ks

/-- The value passed under the `directlyImportsDocuments` keyword, when any. -/
def kwImports : List KwField → Option (List ImportVal)
  | [] => none
  | .importsK l :: _ => some l
  | _ :: ks => kwImports ks

/-- The value passed under the `axioms` keyword, when any. -/
def kwAxioms : List KwField → Option (List AxiomM)
  | [] => none
  | .axiomsK l :: _ => some l
  | _ :: ks => kwAxioms ks

/-- The attribute names `getattr` finds on an Ontology besides the five declared slots:
the methods the class itself defines (lines 86-163).  For such a name the named-field
loop's `cur_v` is the bound method — neither `MISSING` nor `None` — so line 77
attempts `cur_v + v` and raises `TypeError`.  Attributes inherited from base classes
outside `src/` are not enumerated; the modelled behaviours use only names defined in
this file or names that are genuinely absent. -/
def ontologyMethodNames : List String :=
  ["annotation", "declaration", "subClassOf", "equivalentClasses",
   "subObjectPropertyOf", "inverseObjectProperties", "functionalObjectProperty",
   "inverseFunctionalObjectProperty", "objectPropertyDomain", "objectPropertyRange",
   "imports", "to_functional", "to_rdf"]

/-- One iteration of the named-field loop (lines 70-77): `getattr` the slot, assign
when the current value is `None`, skip the pre-assigned `annotations` slot,
concatenate a list slot; `+` on a filled scalar slot is a Python `TypeError`, a
non-slot name that collides with one of the class's own methods hits the same
`cur_v + v` `TypeError` on the bound method, and a name that is no attribute at all
is the unknown-argument failure. -/
def applyKw (o : Ontology) (k : KwField) : Except Err Ontology :=
  match k with
  | .iriK v =>
      match o.iri with
      | none => .ok { o with iri := some v }
      | some _ => .error (.addTypeError "iri")
  | .versionK v =>
      match o.version with
      | none => .ok { o with version := some v }
      | some _ => .error (.addTypeError "version")
  | .importsK l =>
      .ok { o with directlyImportsDocuments := o.directlyImportsDocuments ++ l }
  | .axiomsK l => .ok { o with axioms := o.axioms ++ l }
  | .annotationsK _ => .ok o
  | .unknownK n =>
      if n ∈ ontologyMethodNames then .error (.addTypeError n)
      else .error (.unknownField n)

/-- The named-field loop of `Ontology.__init__` over all keyword arguments in order. -/
def applyKwAll (o : Ontology) (ks : List KwField) : Except Err Ontology :=
  ks.foldlM applyKw o

/-- `Ontology.__init__` (lines 57-80): positional phase, `annotations` pre-assignment,
named-field loop, then failure on any unconsumed positional argument. -/
def ontologyInit (args : List OntArg) (kwargs : List KwField) : Except Err Ontology := do
  let pr := positionalPhase args
  let o1 := { pr.1 with annotations := (kwAnnotations kwargs).getD [] }
  let o2 ← applyKwAll o1 kwargs
  if pr.2.isEmpty then pure o2 else .error (.unrecognizedArguments pr.2)

/-- The aggregate produced by `Ontology()` with no arguments. -/
def ontologyEmpty : Ontology := {}

/-- Modelled from the spec: an identifier resolves to its full resource form (§3; the
identifier classes are not under `src/`).  `IRI.to_rdf(g)` reads no graph state. -/
def IRIv.to_rdf (i : IRIv) : NODE := .uri i.val

/-- Modelled from the spec: `IRI.full_uri(g)` is the identifier's full form. -/
def IRIv.full_uri (i : IRIv) : String := i.val

/-- `Import.ontology_iri` composed with `Import.to_rdf` (lines 39-46):
`URIRef(str(...))` of the wrapped identifier.  A wrapped identifier is used as-is; a
wrapped aggregate contributes its own — possibly missing — identifier, `str(None)`
being the string `None`; wrapped Python `None` itself has no `iri` attribute, so the
access `self.iri.iri` raises. -/
def ImportVal.to_rdf : ImportVal → Except Err NODE
  | .iriV i => .ok (.uri i.val)
  | .ont oiri => .ok (.uri (pyStrOptIri oiri))
  | .noneV => .error .noneAttribute

/-- The node a resolvable import contributes; meaningful under the hypothesis that
`ImportVal.to_rdf` succeeds on it. -/
def ImportVal.nodeOf (im : ImportVal) : NODE :=
  match im.to_rdf with
  | .ok n => n
  | .error _ => .bnode 0

/-- The import loop of `Ontology.to_rdf` (lines 158-159): one `owl:imports` triple per
import, in declaration order. -/
def addImports (subj : NODE) (g : Graph) : List ImportVal → Except Err Graph
  | [] => .ok g
  | im :: ims => do
      let n ← im.to_rdf
      addImports subj (g.add (subj, owlImports, n)) ims

/-- Modelled from the spec: `Annotatable.to_rdf` (`funowl.annotations`, not under
`src/`) attaches each annotation triple to the ontology subject (§4.3). -/
def annotationsToRdf (subj : NODE) (anns : List AnnotationM) (g : Graph) : Graph :=
  { g with triples :=
      g.triples ++ anns.map (fun an => (subj, NODE.uri an.prop.val, NODE.lit an.value)) }

/-- `Ontology.to_rdf` (lines 153-163): subject from the identifier or a fresh anonymous
node, the `rdf:type owl:Ontology` triple, the optional `owl:versionIRI` triple, one
`owl:imports` triple per import, each axiom's own emission, the annotations, and the
subject as the return value.  The source mutates the caller's graph in place; the
embedding threads the graph, so triples added before a raising import are not
observable through the `Except` error — no modelled behaviour reads them. -/
def Ontology.to_rdf (o : Ontology) (g : Graph) : Except Err (NODE × Graph) := do
  let sg : NODE × Graph :=
    match o.iri with
    | some i => (i.to_rdf, g)
    | none => g.newBNode
  let g2 := sg.2.add (sg.1, rdfType, owlOntology)
  let g3 :=
    match o.version with
    | some v => g2.add (sg.1, owlVersionIRI, .uri v.full_uri)
    | none => g2
  let g4 ← addImports sg.1 g3 o.directlyImportsDocuments
  let g5 := o.axioms.foldl (fun g a => a.to_rdf g) g4
  pure (sg.1, annotationsToRdf sg.1 o.annotations g5)

/-- Modelled from the spec: the stateful functional writer (`funowl.writers`, not under
`src/`) accumulates text and owns a live namespace registry — an rdflib graph — used
for identifier abbreviation (§2). -/
structure FunctionalWriter where
  g : Graph := {}
  text : String := ""
deriving DecidableEq

/-- Modelled from the spec (§8): an identifier one of whose registered namespaces is a
leading segment of its full form renders as the abbreviated prefixed name, otherwise
as the bracketed full form. -/
def iriFunText (ns : List (String × String)) (i : IRIv) : String :=
  match ns.find? (fun pu => pu.2 != "" && pu.2.isPrefixOf i.val) with
  | some pu => pu.1 ++ ":" ++ (i.val.drop pu.2.length)
  | none => "<" ++ i.val ++ ">"

/-- `Import.to_functional` (lines 42-43): the keyword group around the wrapped
identifier.  A wrapped aggregate is represented by its identifier only (§3). -/
def ImportVal.funText (ns : List (String × String)) : ImportVal → String
  | .iriV i => "Import( " ++ iriFunText ns i ++ " )"
  | .ont oiri => "Import( " ++ pyStrOptIri oiri ++ " )"
  | .noneV => "Import( None )"

/-- Modelled from the spec: an annotation's functional-syntax group (§4.2). -/
def annotationFunText (ns : List (String × String)) (an : AnnotationM) : String :=
  "Annotation( " ++ iriFunText ns an.prop ++ " " ++ an.value ++ " )"

/-- Newline-separated section, as the writer's `iter` produces for each slot list. -/
def joinLines (xs : List String) : String :=
  xs.foldl (fun s x => s ++ x ++ "\n") ""

/-- `Ontology.to_functional` (lines 143-151): a version identifier without a main
identifier raises; otherwise `w = w or FunctionalWriter()` and the keyword group with
the optional identifier and version, a line break when any of the three lists is
non-empty, then imports, annotations and axioms in order. -/
def Ontology.to_functional (o : Ontology) (w? : Option FunctionalWriter) :
    Except Err FunctionalWriter :=
  if o.version.isSome && o.iri.isNone then .error .invalidVersionWithoutIri
  else
    let w := w?.getD {}
    let ns := w.g.nsBindings
    let body :=
      (match o.iri with | some i => " " ++ iriFunText ns i | none => "") ++
      (match o.version with | some v => " " ++ iriFunText ns v | none => "") ++
      (if !o.directlyImportsDocuments.isEmpty || !o.annotations.isEmpty
          || !o.axioms.isEmpty then "\n" else "") ++
      joinLines (o.directlyImportsDocuments.map (ImportVal.funText ns)) ++
      joinLines (o.annotations.map (annotationFunText ns)) ++
      joinLines (o.axioms.map AxiomM.funText)
    .ok { w with text := w.text ++ "Ontology(" ++ body ++ " )" }

/-- Modelled from the spec: a prefix declaration (`funowl.prefix_declarations`, not
under `src/`) binds a short name — possibly absent, the default — to a full
identifier (§3). -/
structure PrefixM where
  prefixName : Option String
  fullIRI : String
deriving DecidableEq

/-- Python `str()` of an `Optional[str]`. -/
def pyStrOptStr : Option String → String
  | none => "None"
  | some s => s

/-- Modelled from the spec (§4.5): `Prefix.to_rdf` registers the binding with the
sink's namespace registry and emits no triples. -/
def PrefixM.to_rdf (p : PrefixM) (g : Graph) : Graph :=
  g.bind (pyStrOptStr p.prefixName) p.fullIRI

/-- The `OntologyDocument` aggregate (lines 166-172).  `superAttrs` records the writes
that `__setattr__` routes to `object.__setattr__` for underscore-prefixed names; the
two declared fields are first-class. -/
structure OntologyDocument where
  prefixDeclarations : List PrefixM := []
  ontology : Option Ontology := none
  superAttrs : List (String × String) := []
deriving DecidableEq

/-- A positional argument to `OntologyDocument.__init__`: a prefix declaration, a
plain list of them, or an Ontology (only checked for in the last position). -/
inductive DocInitArg where
  | pfxA (p : PrefixM)
  | listA (l : List PrefixM)
  | ontA (o : Ontology)
deriving DecidableEq

/-- The prefix value a positional argument stores; the source performs no type check on
the leading arguments, so a non-prefix value in a prefix position — unreachable in the
modelled behaviours — is defaulted. -/
def DocInitArg.asPrefix : DocInitArg → PrefixM
  | .pfxA p => p
  | .listA _ => ⟨none, ""⟩
  | .ontA _ => ⟨none, ""⟩

/-- `OntologyDocument.__init__` (lines 174-183): a single list argument becomes the
prefix list with the keyword ontology — possibly `None` — stored as is; otherwise a
trailing Ontology argument fills the ontology slot; otherwise all arguments are
prefixes and the slot gets the keyword ontology or a fresh empty one. -/
def docInit (args : List DocInitArg) (ontology : Option Ontology) : OntologyDocument :=
  match args with
  | [.listA l] => { prefixDeclarations := l, ontology := ontology }
  | _ =>
    match args.getLast? with
    | some (.ontA o) =>
        { prefixDeclarations := args.dropLast.map DocInitArg.asPrefix, ontology := some o }
    | _ =>
        { prefixDeclarations := args.map DocInitArg.asPrefix,
          ontology := some (ontology.getD ontologyEmpty) }

/-- Python `key.startswith(chr(95))`: the name opens with an underscore (character
code 95). -/
def startsWithUnderscore (key : String) : Bool :=
  key.data.head? == some (Char.ofNat 95)

/-- `OntologyDocument.__setattr__` (lines 191-196), for string-valued assignments — the
prefix-declaration use.  Names starting with an underscore and the two declared field
names go to `object.__setattr__`, modelled as the `superAttrs` store (for the two
declared names Python would overwrite the field with the ill-typed string; no modelled
behaviour reads it back); every other name appends a prefix declaration, the empty
name becoming the default `None` short name. -/
def docSetattr (d : OntologyDocument) (key : String) (value : String) :
    OntologyDocument :=
  if startsWithUnderscore key || key == "prefixDeclarations" || key == "ontology" then
    { d with superAttrs := d.superAttrs ++ [(key, value)] }
  else
    { d with prefixDeclarations := d.prefixDeclarations ++
        [⟨ if key = "" then none else some key, value⟩] }

/-- A prefix declaration line, as the document renders for each registered namespace. -/
def prefixLine (pu : String × String) : String :=
  "Prefix( " ++ pu.1 ++ ": = <" ++ pu.2 ++ "> )"

/-- `OntologyDocument.to_functional` (lines 206-212): bind every declared prefix into
the writer's graph, render one line per registered namespace followed by a hard break,
then the ontology slot, an empty slot being replaced by a fresh empty `Ontology()` at
render time. -/
def docToFunctional (d : OntologyDocument) (w? : Option FunctionalWriter) :
    Except Err FunctionalWriter :=
  let w := w?.getD {}
  let g2 := d.prefixDeclarations.foldl
    (fun g p => g.bind (pyStrOptStr p.prefixName) p.fullIRI) w.g
  let w2 : FunctionalWriter :=
    { g := g2,
      text := w.text ++ joinLines (g2.nsBindings.map prefixLine) ++ "\n" }
  (d.ontology.getD ontologyEmpty).to_functional (some w2)

/-- `OntologyDocument.to_rdf` (lines 214-217): register each prefix with the sink, then
delegate to the ontology slot; a `None` slot has no `to_rdf` attribute, so the call
raises and performs no substitution. -/
def docToRdf (d : OntologyDocument) (g : Graph) : Except Err (NODE × Graph) :=
  let g2 := d.prefixDeclarations.foldl (fun g p => p.to_rdf g) g
  match d.ontology with
  | some o => o.to_rdf g2
  | none => .error .noneAttribute

/-- The argument to the `imports` builder method: an Ontology, or any other value used
through `str()`. -/
inductive ImportsArg where
  | ontA (o : Ontology)
  | strA (s : String)
deriving DecidableEq

/-- `Ontology.imports` (lines 134-137): append exactly one `Import` wrapping either the
argument ontology's identifier value as read at call time — Python `None` when the
identifier is absent, with no presence check — or an `IRI` built from `str(argument)`;
the mutated aggregate is returned for chaining. -/
def Ontology.imports (o : Ontology) (a : ImportsArg) : Ontology :=
  { o with directlyImportsDocuments := o.directlyImportsDocuments ++
      [match a with
       | .ontA o2 =>
           match o2.iri with
           | some i => ImportVal.iriV i
           | none => ImportVal.noneV
       | .strA s => ImportVal.iriV ⟨ s⟩ ] }

/-- First-filled-wins composition of an already-filled slot with a named-field value. -/
def fillSlot {α : Type} (a b : Option α) : Option α :=
  match a with
  | some x => some x
  | none => b

/-- The triples the axiom list emits when folded over the sink, with the anonymous-node
base each axiom is instantiated at made explicit. -/
def bigEmit : List AxiomM → Nat → List Triple
  | [], _ => []
  | a :: as, c => a.emit c ++ bigEmit as (c + a.nFresh)

/-- The number of anonymous nodes the axiom list consumes in total. -/
def totalFresh : List AxiomM → Nat
  | [] => 0
  | a :: as => a.nFresh + totalFresh as

/-- The subject `Ontology.to_rdf` resolves: the identifier's resource form when present,
else the next freshly generated anonymous node of the sink. -/
def subjOf (o : Ontology) (g : Graph) : NODE :=
  match o.iri with
  | some i => .uri i.val
  | none => .bnode g.counter

/-- The sink's anonymous-node counter after subject resolution. -/
def postSubjCounter (o : Ontology) (g : Graph) : Nat :=
  match o.iri with
  | some _ => g.counter
  | none => g.counter + 1

/-- The error the first non-resolvable import of the list raises, when any. -/
def firstImportError : List ImportVal → Option Err
  | [] => none
  | im :: ims =>
      match im.to_rdf with
      | .error e => some e
      | .ok _ => firstImportError ims

/-- A fresh RDF sink whose anonymous-node generator stands at `n`. -/
def freshG (n : Nat) : Graph := { counter := n }

/-- Renaming of anonymous nodes: the node generated as `n + j` by one pass corresponds
to the node generated as `m + j` by the other. -/
def bnShift (n m : Nat) : NODE → NODE
  | .bnode k => .bnode (k - n + m)
  | x => x

/-- `bnShift` applied to the three slots of a triple. -/
def tripleShift (n m : Nat) (t : Triple) : Triple :=
  (bnShift n m t.1, bnShift n m t.2.1, bnShift n m t.2.2)

/-- The renaming of a whole rendering result: subject and triples renamed, the counter
re-based, errors unchanged. -/
def shiftResult (n m : Nat) : Except Err (NODE × Graph) → Except Err (NODE × Graph)
  | .ok sg => .ok (bnShift n m sg.1,
      { triples := sg.2.triples.map (tripleShift n m),
        counter := m + (sg.2.counter - n),
        nsBindings := sg.2.nsBindings })
  | .error e => .error e

/-- The functional-syntax text of a rendering outcome. -/
def funTextOf (r : Except Err FunctionalWriter) : Except Err String :=
  r.map (fun w => w.text)

/-! Auxiliary lemmas. -/

theorem popIriNotAxiom_not_head (args : List OntArg)
    (h : ∀ x ∈ args.head?, x.isIriNotAxiom = false) :
    popIriNotAxiom args = (none, args) := by
  cases args with
  | nil => rfl
  | cons x rest =>
    cases x with
    | iriA i => simp [OntArg.isIriNotAxiom] at h
    | importA im => rfl
    | axiomA a => rfl
    | iriAxiomA a => rfl
    | otherA s => rfl

theorem takeWhile_dropWhile_append {α : Type} (p : α → Bool) (l1 l2 : List α)
    (h1 : ∀ x ∈ l1, p x = true) (h2 : ∀ x ∈ l2.head?, p x = false) :
    (l1 ++ l2).takeWhile p = l1 ∧ (l1 ++ l2).dropWhile p = l2 := by
  induction l1 with
  | nil =>
    cases l2 with
    | nil => simp
    | cons y ys =>
      have hy := h2 y (by simp)
      simp [List.takeWhile, List.dropWhile, hy]
  | cons x xs ih =>
    have hx := h1 x (by simp)
    have hr := ih (fun z hz => h1 z (by simp [hz]))
    simp [List.takeWhile, List.dropWhile, hx, hr.1, hr.2]

theorem isAxiomArg_not_import (x : OntArg) (h : x.isAxiomArg = true) :
    x.isImportArg = false := by
  cases x <;> simp_all [OntArg.isAxiomArg, OntArg.isImportArg]

theorem isAxiomArg_not_iri (x : OntArg) (h : x.isAxiomArg = true) :
    x.isIriNotAxiom = false := by
  cases x <;> simp_all [OntArg.isAxiomArg, OntArg.isIriNotAxiom]

/-- The tail of a valid argument form — imports then axiom-kind values — starts with no
identifier-not-axiom value. -/
theorem restForm_head_not_iri (imps : List ImportVal) (axs : List OntArg)
    (hax : ∀ x ∈ axs, x.isAxiomArg = true) :
    ∀ x ∈ (imps.map OntArg.importA ++ axs).head?, x.isIriNotAxiom = false := by
  cases imps with
  | nil =>
    cases axs with
    | nil => simp
    | cons a as =>
      intro x hx
      simp at hx
      subst hx
      exact isAxiomArg_not_iri a (hax a (by simp))
  | cons im ims =>
    intro x hx
    simp at hx
    subst hx
    rfl

theorem positionalPhase_valid_rest (imps : List ImportVal) (axs : List OntArg)
    (hax : ∀ x ∈ axs, x.isAxiomArg = true) :
    (imps.map OntArg.importA ++ axs).takeWhile OntArg.isImportArg =
        imps.map OntArg.importA ∧
    (imps.map OntArg.importA ++ axs).dropWhile OntArg.isImportArg = axs ∧
    axs.takeWhile OntArg.isAxiomArg = axs ∧
    axs.dropWhile OntArg.isAxiomArg = [] := by
  have h1 : ∀ x ∈ imps.map OntArg.importA, OntArg.isImportArg x = true := by
    intro x hx
    simp at hx
    obtain ⟨im, -, rfl⟩ := hx
    rfl
  have h2 : ∀ x ∈ axs.head?, OntArg.isImportArg x = false := by
    cases axs with
    | nil => simp
    | cons a as =>
      intro x hx
      simp at hx
      subst hx
      exact isAxiomArg_not_import a (hax a (by simp))
  have hsplit := takeWhile_dropWhile_append OntArg.isImportArg
    (imps.map OntArg.importA) axs h1 h2
  have hall := takeWhile_dropWhile_append OntArg.isAxiomArg axs [] hax (by simp)
  refine ⟨hsplit.1, hsplit.2, ?_, ?_⟩
  · simpa using hall.1
  · simpa using hall.2

theorem map_impPayload (imps : List ImportVal) :
    (imps.map OntArg.importA).map OntArg.impPayload = imps := by
  induction imps with
  | nil => rfl
  | cons im ims ih => simp [OntArg.impPayload, ih]

/-- Characterisation of the positional phase on a valid argument form: up to two
identifiers, then imports, then axiom-kind values, everything consumed into its slot. -/
theorem positionalPhase_valid (ids : List IRIv) (imps : List ImportVal)
    (axs : List OntArg) (hlen : ids.length ≤ 2)
    (hax : ∀ x ∈ axs, x.isAxiomArg = true) :
    positionalPhase (ids.map OntArg.iriA ++ imps.map OntArg.importA ++ axs) =
      ({ iri := ids[0]?, version := ids[1]?,
         directlyImportsDocuments := imps,
         axioms := axs.map OntArg.axPayload,
         annotations := [] }, []) := by
  have hrest := positionalPhase_valid_rest imps axs hax
  have hhead := restForm_head_not_iri imps axs hax
  have hpop := popIriNotAxiom_not_head _ hhead
  have hcons : ∀ (i : IRIv) (rest : List OntArg),
      popIriNotAxiom (OntArg.iriA i :: rest) = (some i, rest) := fun _ _ => rfl
  match ids, hlen with
  | [], _ =>
    simp only [List.map_nil, List.nil_append]
    simp only [positionalPhase, hpop, hrest.1, hrest.2.1, hrest.2.2.1, hrest.2.2.2,
      map_impPayload]
    rfl
  | [i], _ =>
    simp only [List.map_cons, List.map_nil, List.cons_append, List.nil_append]
    simp only [positionalPhase, hcons, hpop, hrest.1, hrest.2.1, hrest.2.2.1,
      hrest.2.2.2, map_impPayload]
    rfl
  | [i, j], _ =>
    simp only [List.map_cons, List.map_nil, List.cons_append, List.nil_append]
    simp only [positionalPhase, hcons, hrest.1, hrest.2.1, hrest.2.2.1,
      hrest.2.2.2, map_impPayload]
    rfl
  | i :: j :: k :: rest, hlen =>
    exfalso
    simp at hlen

theorem kwIri_eq_none (ks : List KwField) (h : "iri" ∉ ks.map KwField.key) :
    kwIri ks = none := by
  induction ks with
  | nil => rfl
  | cons k ks ih =>
    cases k with
    | iriK v => simp [KwField.key] at h
    | versionK v => exact ih (by simp_all [KwField.key])
    | importsK l => exact ih (by simp_all [KwField.key])
    | axiomsK l => exact ih (by simp_all [KwField.key])
    | annotationsK l => exact ih (by simp_all [KwField.key])
    | unknownK n => exact ih (by simp_all [KwField.key])

theorem kwVersion_eq_none (ks : List KwField) (h : "version" ∉ ks.map KwField.key) :
    kwVersion ks = none := by
  induction ks with
  | nil => rfl
  | cons k ks ih =>
    cases k with
    | versionK v => simp [KwField.key] at h
    | iriK v => exact ih (by simp_all [KwField.key])
    | importsK l => exact ih (by simp_all [KwField.key])
    | axiomsK l => exact ih (by simp_all [KwField.key])
    | annotationsK l => exact ih (by simp_all [KwField.key])
    | unknownK n => exact ih (by simp_all [KwField.key])

theorem kwImports_eq_none (ks : List KwField)
    (h : "directlyImportsDocuments" ∉ ks.map KwField.key) : kwImports ks = none := by
  induction ks with
  | nil => rfl
  | cons k ks ih =>
    cases k with
    | importsK l => simp [KwField.key] at h
    | iriK v => exact ih (by simp_all [KwField.key])
    | versionK v => exact ih (by simp_all [KwField.key])
    | axiomsK l => exact ih (by simp_all [KwField.key])
    | annotationsK l => exact ih (by simp_all [KwField.key])
    | unknownK n => exact ih (by simp_all [KwField.key])

theorem kwAxioms_eq_none (ks : List KwField) (h : "axioms" ∉ ks.map KwField.key) :
    kwAxioms ks = none := by
  induction ks with
  | nil => rfl
  | cons k ks ih =>
    cases k with
    | axiomsK l => simp [KwField.key] at h
    | iriK v => exact ih (by simp_all [KwField.key])
    | versionK v => exact ih (by simp_all [KwField.key])
    | importsK l => exact ih (by simp_all [KwField.key])
    | annotationsK l => exact ih (by simp_all [KwField.key])
    | unknownK n => exact ih (by simp_all [KwField.key])

theorem fillSlot_none_right {α : Type} (a : Option α) : fillSlot a none = a := by
  cases a <;> rfl

theorem applyKwAll_cons (o : Ontology) (k : KwField) (ks : List KwField) :
    applyKwAll o (k :: ks) =
      (applyKw o k).bind (fun o2 => applyKwAll o2 ks) := by
  show (applyKw o k).bind (fun o2 => List.foldlM applyKw o2 ks) = _
  rfl

theorem exceptOkBind {e a b : Type} (x : a) (f : a → Except e b) :
    (Except.ok x : Except e a).bind f = f x := rfl

/-- Characterisation of the named-field loop on distinct, recognised fields whose scalar
slots are still empty: each scalar named value fills its empty slot, each list named
value is appended, the pre-assigned annotations slot is untouched. -/
theorem applyKwAll_spec (ks : List KwField) (o : Ontology)
    (hunk : ∀ n, KwField.unknownK n ∉ ks)
    (hnd : (ks.map KwField.key).Nodup)
    (hi : ∀ v, KwField.iriK v ∈ ks → o.iri = none)
    (hv : ∀ v, KwField.versionK v ∈ ks → o.version = none) :
    applyKwAll o ks = .ok
      { iri := fillSlot o.iri (kwIri ks),
        version := fillSlot o.version (kwVersion ks),
        directlyImportsDocuments :=
          o.directlyImportsDocuments ++ (kwImports ks).getD [],
        axioms := o.axioms ++ (kwAxioms ks).getD [],
        annotations := o.annotations } := by
  induction ks generalizing o with
  | nil =>
    simp only [kwIri, kwVersion, kwImports, kwAxioms, fillSlot_none_right,
      Option.getD_none, List.append_nil]
    rfl
  | cons k ks ih =>
    rw [applyKwAll_cons]
    have hnd2 := (List.nodup_cons.mp hnd).2
    have hk := (List.nodup_cons.mp hnd).1
    cases k with
    | iriK v =>
      have ho : o.iri = none := hi v (by simp)
      have htail : kwIri ks = none := kwIri_eq_none ks (by simpa [KwField.key] using hk)
      rw [show applyKw o (.iriK v) = .ok { o with iri := some v } by
        simp [applyKw, ho]]
      rw [exceptOkBind]
      rw [ih { o with iri := some v }
        (fun n hn => hunk n (by simp [hn]))
        hnd2
        (fun v2 hv2 => by
          exfalso
          exact hk (by simpa [KwField.key] using List.mem_map_of_mem KwField.key hv2))
        (fun v2 hv2 => hv v2 (by simp [hv2]))]
      simp [kwIri, kwVersion, kwImports, kwAxioms, fillSlot, ho]
    | versionK v =>
      have ho : o.version = none := hv v (by simp)
      rw [show applyKw o (.versionK v) = .ok { o with version := some v } by
        simp [applyKw, ho]]
      rw [exceptOkBind]
      rw [ih { o with version := some v }
        (fun n hn => hunk n (by simp [hn]))
        hnd2
        (fun v2 hv2 => hi v2 (by simp [hv2]))
        (fun v2 hv2 => by
          exfalso
          exact hk (by simpa [KwField.key] using List.mem_map_of_mem KwField.key hv2))]
      simp [kwIri, kwVersion, kwImports, kwAxioms, fillSlot, ho]
    | importsK l =>
      have htail : kwImports ks = none :=
        kwImports_eq_none ks (by simpa [KwField.key] using hk)
      rw [show applyKw o (.importsK l) =
          .ok { o with directlyImportsDocuments := o.directlyImportsDocuments ++ l }
          from rfl]
      rw [exceptOkBind]
      rw [ih { o with directlyImportsDocuments := o.directlyImportsDocuments ++ l }
        (fun n hn => hunk n (by simp [hn]))
        hnd2
        (fun v2 hv2 => hi v2 (by simp [hv2]))
        (fun v2 hv2 => hv v2 (by simp [hv2]))]
      simp [kwIri, kwVersion, kwImports, kwAxioms, htail]
    | axiomsK l =>
      have htail : kwAxioms ks = none :=
        kwAxioms_eq_none ks (by simpa [KwField.key] using hk)
      rw [show applyKw o (.axiomsK l) = .ok { o with axioms := o.axioms ++ l } from rfl]
      rw [exceptOkBind]
      rw [ih { o with axioms := o.axioms ++ l }
        (fun n hn => hunk n (by simp [hn]))
        hnd2
        (fun v2 hv2 => hi v2 (by simp [hv2]))
        (fun v2 hv2 => hv v2 (by simp [hv2]))]
      simp [kwIri, kwVersion, kwImports, kwAxioms, htail]
    | annotationsK l =>
      rw [show applyKw o (.annotationsK l) = .ok o from rfl]
      rw [exceptOkBind]
      rw [ih o
        (fun n hn => hunk n (by simp [hn]))
        hnd2
        (fun v2 hv2 => hi v2 (by simp [hv2]))
        (fun v2 hv2 => hv v2 (by simp [hv2]))]
      simp [kwIri, kwVersion, kwImports, kwAxioms]
    | unknownK n =>
      exact absurd (by simp : KwField.unknownK n ∈ KwField.unknownK n :: ks) (hunk n)

/-- The axiom fold of `Ontology.to_rdf` appends exactly the axioms' own emissions, each
instantiated at the anonymous-node base the previous axioms left behind. -/
theorem axioms_fold_spec (axs : List AxiomM) (g : Graph) :
    axs.foldl (fun g a => a.to_rdf g) g =
      { g with triples := g.triples ++ bigEmit axs g.counter,
               counter := g.counter + totalFresh axs } := by
  induction axs generalizing g with
  | nil => simp [bigEmit, totalFresh]
  | cons a as ih =>
    show as.foldl (fun g a => a.to_rdf g) (a.to_rdf g) = _
    rw [ih]
    simp [AxiomM.to_rdf, bigEmit, totalFresh, Nat.add_assoc]

theorem addImports_spec (ims : List ImportVal) (subj : NODE) (g : Graph)
    (h : ∀ im ∈ ims, ∃ n, ImportVal.to_rdf im = .ok n) :
    addImports subj g ims =
      .ok { g with triples := g.triples ++
              ims.map (fun im => (subj, owlImports, im.nodeOf)) } := by
  induction ims generalizing g with
  | nil => simp [addImports]
  | cons im ims ih =>
    obtain ⟨n, hn⟩ := h im (by simp)
    have hnode : im.nodeOf = n := by simp [ImportVal.nodeOf, hn]
    show (im.to_rdf).bind (fun n => addImports subj (g.add (subj, owlImports, n)) ims) = _
    rw [hn, exceptOkBind, ih _ (fun x hx => h x (by simp [hx]))]
    simp [Graph.add, hnode]

theorem firstImportError_some (ims : List ImportVal) (e : Err)
    (h : firstImportError ims = some e) :
    ∀ subj g, addImports subj g ims = .error e := by
  induction ims with
  | nil => simp [firstImportError] at h
  | cons im ims ih =>
    intro subj g
    show (im.to_rdf).bind (fun n => addImports subj (g.add (subj, owlImports, n)) ims) = _
    cases him : im.to_rdf with
    | error e2 =>
      simp [firstImportError, him] at h
      subst h
      rfl
    | ok n =>
      rw [exceptOkBind]
      simp [firstImportError, him] at h
      exact ih h _ _

theorem firstImportError_none (ims : List ImportVal)
    (h : firstImportError ims = none) :
    ∀ im ∈ ims, ∃ n, ImportVal.to_rdf im = .ok n := by
  induction ims with
  | nil => simp
  | cons im ims ih =>
    intro x hx
    cases him : im.to_rdf with
    | error e2 => simp [firstImportError, him] at h
    | ok n =>
      simp [firstImportError, him] at h
      rcases List.mem_cons.mp hx with rfl | hx2
      · exact ⟨n, him⟩
      · exact ih h x hx2

/-- A resolvable import always resolves to a URI node. -/
theorem import_ok_is_uri (im : ImportVal) (n : NODE)
    (h : ImportVal.to_rdf im = .ok n) : ∃ s, n = .uri s := by
  cases im with
  | ont oiri =>
    simp [ImportVal.to_rdf] at h
    exact ⟨_, h.symm⟩
  | iriV i =>
    simp [ImportVal.to_rdf] at h
    exact ⟨_, h.symm⟩
  | noneV => simp [ImportVal.to_rdf] at h

/-- The version slot of the positional phase is only ever filled after the identifier
slot: a second identifier is consumed only when a first one was. -/
theorem positional_version_needs_iri (args : List OntArg) :
    (positionalPhase args).1.version.isSome = true →
      (positionalPhase args).1.iri.isSome = true := by
  intro h
  cases args with
  | nil => simp [positionalPhase, popIriNotAxiom] at h
  | cons x rest =>
    cases x with
    | iriA i => simp [positionalPhase, popIriNotAxiom]
    | importA im => simp [positionalPhase, popIriNotAxiom] at h
    | axiomA a => simp [positionalPhase, popIriNotAxiom] at h
    | iriAxiomA a => simp [positionalPhase, popIriNotAxiom] at h
    | otherA s => simp [positionalPhase, popIriNotAxiom] at h

theorem exceptOkBindM {e a b : Type} (x : a) (f : a → Except e b) :
    (Except.ok x : Except e a) >>= f = f x := rfl

/-- Characterisation of `Ontology.to_rdf` when every import resolves: the subject is the
identifier's resource form or a fresh anonymous node, and the sink receives the type
triple, the optional version triple, one `owl:imports` triple per import in order, the
axioms' own emissions, and the annotation triples, in that order; the subject is
returned. -/
theorem to_rdf_ok_spec (o : Ontology) (g : Graph)
    (h : ∀ im ∈ o.directlyImportsDocuments, ∃ n, ImportVal.to_rdf im = .ok n) :
    Ontology.to_rdf o g =
      .ok (subjOf o g,
        { triples := g.triples ++
            (subjOf o g, rdfType, owlOntology) ::
            ((o.version.map fun v =>
                (subjOf o g, owlVersionIRI, NODE.uri v.val)).toList ++
             o.directlyImportsDocuments.map
               (fun im => (subjOf o g, owlImports, im.nodeOf)) ++
             bigEmit o.axioms (postSubjCounter o g) ++
             o.annotations.map fun an =>
               (subjOf o g, NODE.uri an.prop.val, NODE.lit an.value)),
          counter := postSubjCounter o g + totalFresh o.axioms,
          nsBindings := g.nsBindings }) := by
  cases hi : o.iri with
  | some i =>
    cases hv : o.version with
    | some v =>
      simp only [Ontology.to_rdf, hi, hv, IRIv.to_rdf, IRIv.full_uri, Graph.add,
        subjOf, postSubjCounter]
      rw [addImports_spec _ _ _ h, exceptOkBindM, axioms_fold_spec]
      simp [annotationsToRdf, List.append_assoc]
      rfl
    | none =>
      simp only [Ontology.to_rdf, hi, hv, IRIv.to_rdf, IRIv.full_uri, Graph.add,
        subjOf, postSubjCounter]
      rw [addImports_spec _ _ _ h, exceptOkBindM, axioms_fold_spec]
      simp [annotationsToRdf, List.append_assoc]
      rfl
  | none =>
    cases hv : o.version with
    | some v =>
      simp only [Ontology.to_rdf, hi, hv, IRIv.to_rdf, IRIv.full_uri, Graph.add,
        Graph.newBNode, subjOf, postSubjCounter]
      rw [addImports_spec _ _ _ h, exceptOkBindM, axioms_fold_spec]
      simp [annotationsToRdf, List.append_assoc]
      rfl
    | none =>
      simp only [Ontology.to_rdf, hi, hv, IRIv.to_rdf, IRIv.full_uri, Graph.add,
        Graph.newBNode, subjOf, postSubjCounter]
      rw [addImports_spec _ _ _ h, exceptOkBindM, axioms_fold_spec]
      simp [annotationsToRdf, List.append_assoc]
      rfl

theorem bnShift_inst (n m d : Nat) (tn : TNode) :
    bnShift n m (TNode.inst (n + d) tn) = TNode.inst (m + d) tn := by
  cases tn with
  | uriT s => rfl
  | litT s => rfl
  | freshT j =>
    simp only [TNode.inst, bnShift]
    congr 1
    omega

theorem tripleShift_inst (n m d : Nat) (t : TTriple) :
    tripleShift n m (instTriple (n + d) t) = instTriple (m + d) t := by
  simp [tripleShift, instTriple, bnShift_inst]

theorem bigEmit_shift (n m : Nat) (axs : List AxiomM) (d : Nat) :
    bigEmit axs (m + d) = (bigEmit axs (n + d)).map (tripleShift n m) := by
  induction axs generalizing d with
  | nil => rfl
  | cons a as ih =>
    simp only [bigEmit, AxiomM.emit, List.map_append, List.map_map]
    have h1 : List.map (instTriple (m + d)) a.template =
        List.map (tripleShift n m ∘ instTriple (n + d)) a.template := by
      apply List.map_congr_left
      intro t ht
      exact (tripleShift_inst n m d t).symm
    have h2 : bigEmit as (m + d + a.nFresh) =
        List.map (tripleShift n m) (bigEmit as (n + d + a.nFresh)) := by
      rw [Nat.add_assoc, Nat.add_assoc, ih (d + a.nFresh)]
    rw [h1, h2]

theorem getElemOne_none (l : List IRIv) (hl : l.length ≤ 1) : l[1]? = none := by
  cases l with
  | nil => rfl
  | cons a as =>
    cases as with
    | nil => rfl
    | cons b bs => simp at hl

/-- Claim C1: for every valid positional argument sequence of the form
optional identifier, optional second identifier, imports, axioms — with recognised,
distinct named fields whose scalar slots the positionals left empty — the constructed
aggregate's slots are exactly the positional sequence redistributed in slot order with
the named-field values appended per slot; and the version slot is filled by positional
consumption only when the identifier slot was filled first. -/
theorem ontology_init_slot_reconstruction
    (ids : List IRIv) (imps : List ImportVal) (axs : List OntArg) (kwargs : List KwField)
    (hlen : ids.length ≤ 2)
    (hax : ∀ x ∈ axs, x.isAxiomArg = true)
    (hunk : ∀ n, KwField.unknownK n ∉ kwargs)
    (hnd : (kwargs.map KwField.key).Nodup)
    (hi : ∀ v, KwField.iriK v ∈ kwargs → ids = [])
    (hv : ∀ v, KwField.versionK v ∈ kwargs → ids.length ≤ 1) :
    ontologyInit (ids.map OntArg.iriA ++ imps.map OntArg.importA ++ axs) kwargs =
      .ok { iri := fillSlot ids[0]? (kwIri kwargs),
            version := fillSlot ids[1]? (kwVersion kwargs),
            directlyImportsDocuments := imps ++ (kwImports kwargs).getD [],
            axioms := axs.map OntArg.axPayload ++ (kwAxioms kwargs).getD [],
            annotations := (kwAnnotations kwargs).getD [] } ∧
    (∀ args2 : List OntArg, (positionalPhase args2).1.version.isSome = true →
        (positionalPhase args2).1.iri.isSome = true) := by
  refine ⟨?_, positional_version_needs_iri⟩
  have hpos := positionalPhase_valid ids imps axs hlen hax
  simp only [ontologyInit, hpos]
  rw [applyKwAll_spec kwargs _
    hunk hnd
    (fun v hvm => by simp [hi v hvm])
    (fun v hvm => by simp [getElemOne_none ids (hv v hvm)])]
  rw [exceptOkBindM]
  simp
  rfl

/-- Witness for C1: the theorem applied at a concrete valid call — identifier, version,
one import, one positional axiom, one named axiom. -/
theorem ontology_init_slot_reconstruction_witness :
    ontologyInit
        [OntArg.iriA ⟨ "http://x/o"⟩, OntArg.iriA ⟨ "http://x/v"⟩,
         OntArg.importA (.iriV ⟨ "http://x/i"⟩), OntArg.axiomA ⟨ "A", [], 0⟩]
        [KwField.axiomsK [⟨ "B", [], 0⟩]] =
      .ok { iri := some ⟨ "http://x/o"⟩, version := some ⟨ "http://x/v"⟩,
            directlyImportsDocuments := [.iriV ⟨ "http://x/i"⟩],
            axioms := [⟨ "A", [], 0⟩, ⟨ "B", [], 0⟩],
            annotations := [] } := by
  have h := ontology_init_slot_reconstruction
    [⟨ "http://x/o"⟩, ⟨ "http://x/v"⟩] [.iriV ⟨ "http://x/i"⟩]
    [OntArg.axiomA ⟨ "A", [], 0⟩] [KwField.axiomsK [⟨ "B", [], 0⟩]]
    (by decide) (by simp [OntArg.isAxiomArg]) (fun n => by simp)
    (by simp [KwField.key]) (fun v hvm => by simp at hvm) (fun v hvm => by simp at hvm)
  simpa [kwIri, kwVersion, kwImports, kwAxioms, kwAnnotations, fillSlot,
    OntArg.axPayload] using h.1

/-- Claim C2: constructing an Ontology with only a version identifier — through the
named field `version` — succeeds; functional-syntax rendering of that object fails
with the version-without-identifier error; RDF rendering of the same object succeeds,
with a freshly generated anonymous node as subject. -/
theorem ontology_version_only_renderer_specific (v : IRIv) (g : Graph) :
    ontologyInit [] [KwField.versionK v] = .ok { version := some v } ∧
    Ontology.to_functional { version := some v } none =
      .error .invalidVersionWithoutIri ∧
    Ontology.to_rdf { version := some v } g =
      .ok (.bnode g.counter,
        { triples := g.triples ++
            [(.bnode g.counter, rdfType, owlOntology),
             (.bnode g.counter, owlVersionIRI, .uri v.val)],
          counter := g.counter + 1,
          nsBindings := g.nsBindings }) := by
  refine ⟨rfl, rfl, ?_⟩
  rw [to_rdf_ok_spec _ _ (by simp)]
  simp [subjOf, postSubjCounter, bigEmit, totalFresh]

/-- Claim C3 (amended): an Import wrapping an Ontology aggregate resolves to the URI
built from the Python string form of the aggregate's identifier — the string `None`
when the identifier is absent, with no error raised — and an Import wrapping a plain
identifier resolves to that identifier's resource form as-is. -/
theorem import_to_rdf_resolution (oiri : Option IRIv) (i : IRIv) :
    ImportVal.to_rdf (.ont oiri) = .ok (.uri (pyStrOptIri oiri)) ∧
    ImportVal.to_rdf (.iriV i) = .ok (.uri i.val) := ⟨rfl, rfl⟩

/-- Counterexample to C3 as stated: asking an Import that wraps an identifier-less
Ontology aggregate for its RDF resource form does not raise — it succeeds and returns
the URI spelled `None`. -/
theorem import_missing_iri_counterexample :
    ImportVal.to_rdf (.ont none) = .ok (.uri "None") := rfl

/-- Claim C4: RDF rendering uses the identifier's resource form as subject when present
and otherwise a freshly generated anonymous node, emits the `rdf:type owl:Ontology`
triple, the `owl:versionIRI` triple when the version is set, one `owl:imports` triple
per import in order with the import's resolved identifier, delegates the axioms to
their own emissions, and returns the subject; in particular `Ontology()` with no
arguments emits exactly one triple, typing an anonymous subject. -/
theorem ontology_to_rdf_emission (o : Ontology) (g : Graph)
    (h : ∀ im ∈ o.directlyImportsDocuments, ∃ n, ImportVal.to_rdf im = .ok n) :
    Ontology.to_rdf o g =
      .ok (subjOf o g,
        { triples := g.triples ++
            (subjOf o g, rdfType, owlOntology) ::
            ((o.version.map fun v =>
                (subjOf o g, owlVersionIRI, NODE.uri v.val)).toList ++
             o.directlyImportsDocuments.map
               (fun im => (subjOf o g, owlImports, im.nodeOf)) ++
             bigEmit o.axioms (postSubjCounter o g) ++
             o.annotations.map fun an =>
               (subjOf o g, NODE.uri an.prop.val, NODE.lit an.value)),
          counter := postSubjCounter o g + totalFresh o.axioms,
          nsBindings := g.nsBindings }) ∧
    ontologyInit [] [] = .ok ontologyEmpty ∧
    Ontology.to_rdf ontologyEmpty { triples := [], counter := 0 } =
      .ok (.bnode 0,
        { triples := [(.bnode 0, rdfType, owlOntology)], counter := 1 }) :=
  ⟨to_rdf_ok_spec o g h, rfl, rfl⟩

/-- Witness for C4: the theorem applied to an ontology with an identifier, a version
and one import, rendered into a fresh sink. -/
theorem ontology_to_rdf_emission_witness :
    Ontology.to_rdf
        { iri := some ⟨ "http://x/o"⟩, version := some ⟨ "http://x/v"⟩,
          directlyImportsDocuments := [.iriV ⟨ "http://x/i"⟩] } {} =
      .ok (.uri "http://x/o",
        { triples := [(.uri "http://x/o", rdfType, owlOntology),
                      (.uri "http://x/o", owlVersionIRI, .uri "http://x/v"),
                      (.uri "http://x/o", owlImports, .uri "http://x/i")],
          counter := 0 }) := by
  have h := ontology_to_rdf_emission
    { iri := some ⟨ "http://x/o"⟩, version := some ⟨ "http://x/v"⟩,
      directlyImportsDocuments := [.iriV ⟨ "http://x/i"⟩] } {}
    (by intro im him; simp at him; subst him; exact ⟨_, rfl⟩)
  simpa [subjOf, postSubjCounter, bigEmit, totalFresh, ImportVal.nodeOf,
    ImportVal.to_rdf] using h.1

/-- Claim C5 (amended): whenever the positional phase leaves at least one argument
unconsumed, construction fails and no aggregate is returned; the failure is the
unrecognised-arguments error, reporting the unconsumed values, whenever the named
fields are processed without error — in particular whenever there are none — while a
named-field failure such as an unknown field is raised first. -/
theorem unrecognized_arguments_failure (args : List OntArg) (kwargs : List KwField)
    (hrest : (positionalPhase args).2 ≠ []) :
    (∀ o, ontologyInit args kwargs ≠ .ok o) ∧
    (∀ o1, applyKwAll { (positionalPhase args).1 with
          annotations := (kwAnnotations kwargs).getD [] } kwargs = .ok o1 →
        ontologyInit args kwargs =
          .error (.unrecognizedArguments (positionalPhase args).2)) := by
  have hne : (positionalPhase args).2.isEmpty = false := by
    cases hp : (positionalPhase args).2 with
    | nil => exact absurd hp hrest
    | cons x xs => rfl
  constructor
  · intro o hok
    have : ontologyInit args kwargs =
        (applyKwAll { (positionalPhase args).1 with
          annotations := (kwAnnotations kwargs).getD [] } kwargs).bind
          (fun o2 => if (positionalPhase args).2.isEmpty then pure o2
            else .error (.unrecognizedArguments (positionalPhase args).2)) := rfl
    rw [this] at hok
    cases ha : applyKwAll { (positionalPhase args).1 with
        annotations := (kwAnnotations kwargs).getD [] } kwargs with
    | error e => rw [ha] at hok; exact absurd hok (by simp [Except.bind])
    | ok o2 =>
      rw [ha, exceptOkBind, hne] at hok
      simp at hok
  · intro o1 ha
    have : ontologyInit args kwargs =
        (applyKwAll { (positionalPhase args).1 with
          annotations := (kwAnnotations kwargs).getD [] } kwargs).bind
          (fun o2 => if (positionalPhase args).2.isEmpty then pure o2
            else .error (.unrecognizedArguments (positionalPhase args).2)) := rfl
    rw [this, ha, exceptOkBind, hne]
    rfl

/-- Witness for C5 (amended): a single unclassifiable positional argument and no named
fields: construction fails with the unrecognised-arguments error carrying it. -/
theorem unrecognized_arguments_failure_witness :
    (∀ o, ontologyInit [OntArg.otherA "w"] [] ≠ .ok o) ∧
    ontologyInit [OntArg.otherA "w"] [] =
      .error (.unrecognizedArguments [OntArg.otherA "w"]) := by
  have h := unrecognized_arguments_failure [OntArg.otherA "w"] [] (by decide)
  exact ⟨h.1, h.2 _ rfl⟩

/-- Counterexample to C5 as stated: with an unclassifiable positional argument and an
unknown named field, construction fails with the unknown-field error — raised by the
named-field loop before the leftover positional check — not with the
unrecognised-arguments error. -/
theorem unknown_field_before_unrecognized_counterexample :
    ontologyInit [OntArg.otherA "x"] [KwField.unknownK "bogus"] =
      .error (.unknownField "bogus") := rfl

/-- Counterexample to C6 as stated: the keyword `imports` corresponds to no declared
slot, yet construction fails with the `TypeError` that `cur_v + v` raises on the bound
method of that name, not with the unknown-field error. -/
theorem method_named_field_counterexample :
    ontologyInit [] [KwField.unknownK "imports"] =
      .error (.addTypeError "imports") ∧
    "imports" ∉ ["iri", "version", "directlyImportsDocuments", "axioms",
      "annotations"] :=
  ⟨rfl, by decide⟩

/-- Claim C6 (amended): a named field whose name is neither a declared slot nor one of
the aggregate's own method attributes makes construction fail with the unknown-field
error — given that the named fields before it were processed without error — while a
named field colliding with a method attribute, such as `imports`, fails with the
`TypeError` that `cur_v + v` raises on the bound method; a named field for an empty
scalar slot assigns directly; a named field for a list slot concatenates, preserving
the existing order followed by the new values — assignment to an empty list slot
being the empty-prefix case. -/
theorem named_field_application_amended (args : List OntArg) (ks1 ks2 : List KwField)
    (name : String) (o1 o : Ontology) (v : IRIv)
    (li : List ImportVal) (la : List AxiomM)
    (hname : name ∉ ontologyMethodNames)
    (h1 : applyKwAll { (positionalPhase args).1 with
        annotations :=
          (kwAnnotations (ks1 ++ KwField.unknownK name :: ks2)).getD [] } ks1 =
      .ok o1) :
    ontologyInit args (ks1 ++ KwField.unknownK name :: ks2) =
      .error (.unknownField name) ∧
    (∀ mname, mname ∈ ontologyMethodNames →
      applyKw o (.unknownK mname) = .error (.addTypeError mname)) ∧
    (o.iri = none → applyKw o (.iriK v) = .ok { o with iri := some v }) ∧
    (o.version = none → applyKw o (.versionK v) = .ok { o with version := some v }) ∧
    applyKw o (.importsK li) =
      .ok { o with directlyImportsDocuments := o.directlyImportsDocuments ++ li } ∧
    applyKw o (.axiomsK la) = .ok { o with axioms := o.axioms ++ la } := by
  refine ⟨?_, ?_, ?_, ?_, rfl, rfl⟩
  · have hstep : ontologyInit args (ks1 ++ KwField.unknownK name :: ks2) =
        (applyKwAll { (positionalPhase args).1 with
          annotations :=
            (kwAnnotations (ks1 ++ KwField.unknownK name :: ks2)).getD [] }
          (ks1 ++ KwField.unknownK name :: ks2)).bind
          (fun o2 => if (positionalPhase args).2.isEmpty then pure o2
            else .error (.unrecognizedArguments (positionalPhase args).2)) := rfl
    rw [hstep]
    rw [show applyKwAll { (positionalPhase args).1 with
        annotations :=
          (kwAnnotations (ks1 ++ KwField.unknownK name :: ks2)).getD [] }
        (ks1 ++ KwField.unknownK name :: ks2) =
      (applyKwAll { (positionalPhase args).1 with
        annotations :=
          (kwAnnotations (ks1 ++ KwField.unknownK name :: ks2)).getD [] } ks1).bind
        (fun o2 => applyKwAll o2 (KwField.unknownK name :: ks2)) from
      List.foldlM_append _ _ _ _]
    rw [h1, exceptOkBind, applyKwAll_cons]
    rw [show applyKw o1 (.unknownK name) = .error (.unknownField name) from by
      simp [applyKw, hname]]
    rfl
  · intro mname hm
    simp [applyKw, hm]
  · intro ho
    simp [applyKw, ho]
  · intro ho
    simp [applyKw, ho]

/-- Witness for C6 (amended): a genuinely absent keyword fails with the unknown-field
error, the method-named keyword `imports` fails with the `TypeError`, and a named
identifier value fills the empty identifier slot. -/
theorem named_field_application_amended_witness :
    ontologyInit [] [KwField.unknownK "b6"] = .error (.unknownField "b6") ∧
    applyKw ontologyEmpty (.unknownK "imports") = .error (.addTypeError "imports") ∧
    applyKw ontologyEmpty (.iriK ⟨ "http://x/w6"⟩) =
      .ok { ontologyEmpty with iri := some ⟨ "http://x/w6"⟩ } := by
  have h := named_field_application_amended [] [] [] "b6" ontologyEmpty ontologyEmpty
    ⟨ "http://x/w6"⟩ [] [] (by decide) rfl
  exact ⟨h.1, h.2.1 "imports" (by decide), h.2.2.1 rfl⟩

/-- Claim C7 (amended): attribute assignment on a document appends a prefix entry —
short name the attribute name, full identifier the assigned value — for every name
that neither starts with an underscore nor is one of the two protocol-reserved field
names, and falls through to normal field assignment both for the two reserved names
and for every name starting with an underscore. -/
theorem setattr_prefix_routing (d : OntologyDocument) (key value : String) :
    (startsWithUnderscore key = false → key ≠ "prefixDeclarations" → key ≠ "ontology" →
      docSetattr d key value =
        { d with prefixDeclarations := d.prefixDeclarations ++
            [⟨ if key = "" then none else some key, value⟩] }) ∧
    (startsWithUnderscore key = true ∨ key = "prefixDeclarations" ∨ key = "ontology" →
      docSetattr d key value =
        { d with superAttrs := d.superAttrs ++ [(key, value)] }) := by
  constructor
  · intro h1 h2 h3
    simp [docSetattr, h1, h2, h3]
  · intro h
    rcases h with h | h | h <;> simp [docSetattr, h]

/-- Witness for C7 (amended): an ordinary name appends a prefix entry; the reserved
prefix-list name falls through to field assignment. -/
theorem setattr_prefix_routing_witness :
    docSetattr {} "ex" "http://example.org/" =
      { prefixDeclarations := [⟨some "ex", "http://example.org/"⟩] } ∧
    docSetattr {} "prefixDeclarations" "http://example.org/" =
      { superAttrs := [("prefixDeclarations", "http://example.org/")] } := by
  refine ⟨?_, ?_⟩
  · have h := (setattr_prefix_routing {} "ex" "http://example.org/").1 rfl
      (by decide) (by decide)
    simpa using h
  · have h := (setattr_prefix_routing {} "prefixDeclarations" "http://example.org/").2
      (Or.inr (Or.inl rfl))
    simpa using h

/-- Counterexample to C7 as stated: the name `_x` is neither of the two
protocol-reserved names, yet assigning to it falls through to normal field assignment
and appends no prefix entry. -/
theorem setattr_underscore_counterexample :
    ("_x" ≠ "prefixDeclarations" ∧ "_x" ≠ "ontology") ∧
    docSetattr {} "_x" "http://example.org/" =
      { superAttrs := [("_x", "http://example.org/")] } ∧
    (docSetattr {} "_x" "http://example.org/").prefixDeclarations = [] := by
  exact ⟨⟨by decide, by decide⟩, rfl, rfl⟩

theorem to_rdf_import_error (o : Ontology) (g : Graph) (e : Err)
    (hfe : firstImportError o.directlyImportsDocuments = some e) :
    Ontology.to_rdf o g = .error e := by
  have key : ∀ (subj : NODE) (g3 : Graph) (k : Graph → Except Err (NODE × Graph)),
      (addImports subj g3 o.directlyImportsDocuments).bind k = .error e := by
    intro subj g3 k
    rw [firstImportError_some _ _ hfe]
    rfl
  cases hi : o.iri with
  | some i =>
    cases hv : o.version with
    | some v =>
      simp only [Ontology.to_rdf, hi, hv]
      exact key _ _ _
    | none =>
      simp only [Ontology.to_rdf, hi, hv]
      exact key _ _ _
  | none =>
    cases hv : o.version with
    | some v =>
      simp only [Ontology.to_rdf, hi, hv]
      exact key _ _ _
    | none =>
      simp only [Ontology.to_rdf, hi, hv]
      exact key _ _ _

theorem bnShift_uri (n m : Nat) (s : String) : bnShift n m (.uri s) = .uri s := rfl

theorem bnShift_lit (n m : Nat) (s : String) : bnShift n m (.lit s) = .lit s := rfl

theorem bnShift_base (n m : Nat) : bnShift n m (.bnode n) = .bnode m := by
  simp only [bnShift]
  congr 1
  omega

theorem subjOf_shift (o : Ontology) (n m : Nat) :
    bnShift n m (subjOf o (freshG n)) = subjOf o (freshG m) := by
  cases hi : o.iri with
  | some i => simp [subjOf, hi, bnShift_uri]
  | none => simp [subjOf, hi, freshG, bnShift_base]

theorem bnShift_rdfType (n m : Nat) : bnShift n m rdfType = rdfType := rfl

theorem bnShift_owlOntology (n m : Nat) : bnShift n m owlOntology = owlOntology := rfl

theorem bnShift_owlVersionIRI (n m : Nat) :
    bnShift n m owlVersionIRI = owlVersionIRI := rfl

theorem bnShift_owlImports (n m : Nat) : bnShift n m owlImports = owlImports := rfl

/-- RDF rendering from two fresh sinks whose anonymous-node generators stand at
different positions produces the same outcome up to the corresponding renaming of
anonymous nodes. -/
theorem to_rdf_shift (o : Ontology) (n m : Nat) :
    Ontology.to_rdf o (freshG m) = shiftResult n m (Ontology.to_rdf o (freshG n)) := by
  cases hfe : firstImportError o.directlyImportsDocuments with
  | some e =>
    rw [to_rdf_import_error o _ e hfe, to_rdf_import_error o _ e hfe]
    rfl
  | none =>
    have hall := firstImportError_none _ hfe
    have himp : ∀ (s1 s2 : NODE), bnShift n m s1 = s2 →
        List.map (tripleShift n m)
            (List.map (fun im => (s1, owlImports, ImportVal.nodeOf im))
              o.directlyImportsDocuments) =
          List.map (fun im => (s2, owlImports, ImportVal.nodeOf im))
            o.directlyImportsDocuments := by
      intro s1 s2 hs
      rw [List.map_map]
      apply List.map_congr_left
      intro im him
      obtain ⟨nn, hnn⟩ := hall im him
      obtain ⟨s, rfl⟩ := import_ok_is_uri im nn hnn
      have hnode : im.nodeOf = .uri s := by simp [ImportVal.nodeOf, hnn]
      simp [Function.comp, tripleShift, hnode, hs, bnShift_uri, bnShift_owlImports]
    have hann : ∀ (s1 s2 : NODE), bnShift n m s1 = s2 →
        List.map (tripleShift n m)
            (List.map (fun an => (s1, NODE.uri an.prop.val, NODE.lit an.value))
              o.annotations) =
          List.map (fun an => (s2, NODE.uri an.prop.val, NODE.lit an.value))
            o.annotations := by
      intro s1 s2 hs
      rw [List.map_map]
      apply List.map_congr_left
      intro an han
      simp [Function.comp, tripleShift, hs, bnShift_uri, bnShift_lit]
    have hver : ∀ (s1 s2 : NODE), bnShift n m s1 = s2 →
        List.map (tripleShift n m)
            ((o.version.map fun v => (s1, owlVersionIRI, NODE.uri v.val)).toList) =
          (o.version.map fun v => (s2, owlVersionIRI, NODE.uri v.val)).toList := by
      intro s1 s2 hs
      cases o.version with
      | none => rfl
      | some v => simp [tripleShift, hs, bnShift_uri, bnShift_owlVersionIRI]
    rw [to_rdf_ok_spec o (freshG n) hall, to_rdf_ok_spec o (freshG m) hall]
    cases hi : o.iri with
    | some i =>
      have hs : bnShift n m (NODE.uri i.val) = NODE.uri i.val := rfl
      have hbig := (bigEmit_shift n m o.axioms 0).symm
      simp only [Nat.add_zero] at hbig
      have hc : m + (n + totalFresh o.axioms - n) = m + totalFresh o.axioms := by
        omega
      simp only [shiftResult, subjOf, postSubjCounter, hi, freshG, List.nil_append,
        List.map_cons, List.map_append]
      rw [hs, hver _ _ hs, himp _ _ hs, hann _ _ hs, hbig, hc]
      rw [show tripleShift n m (NODE.uri i.val, rdfType, owlOntology) =
        (NODE.uri i.val, rdfType, owlOntology) from rfl]
    | none =>
      have hs : bnShift n m (NODE.bnode n) = NODE.bnode m := bnShift_base n m
      have hbig := (bigEmit_shift n m o.axioms 1).symm
      have hc : m + (n + 1 + totalFresh o.axioms - n) = m + 1 + totalFresh o.axioms := by
        omega
      have h2 : tripleShift n m (NODE.bnode n, rdfType, owlOntology) =
          (NODE.bnode m, rdfType, owlOntology) := by
        simp only [tripleShift, bnShift_rdfType, bnShift_owlOntology, hs]
      simp only [shiftResult, subjOf, postSubjCounter, hi, freshG, List.nil_append,
        List.map_cons, List.map_append]
      rw [hs, hver _ _ hs, himp _ _ hs, hann _ _ hs, hbig, hc, h2]

/-- The functional-syntax text of an ontology does not depend on the anonymous-node
state of the writer's namespace graph: a fresh writer per pass yields byte-identical
text. -/
theorem to_functional_counter_independent (o : Ontology) (w : FunctionalWriter)
    (c1 c2 : Nat) :
    funTextOf (Ontology.to_functional o
        (some { w with g := { w.g with counter := c1 } })) =
      funTextOf (Ontology.to_functional o
        (some { w with g := { w.g with counter := c2 } })) := by
  by_cases h : o.version.isSome && o.iri.isNone
  · simp [Ontology.to_functional, h]
  · simp only [Ontology.to_functional, h, if_false, Bool.false_eq_true]
    rfl

/-- Claim C8: rendering the same unmodified aggregate twice with a fresh writer or sink
per pass is reproducible — the functional-syntax text is byte-identical whatever
anonymous-node state the writer's graph carries, and the RDF triples produced from two
fresh sinks agree up to the renaming of freshly generated anonymous nodes, errors
included. -/
theorem render_unmodified_twice (o : Ontology) (w : FunctionalWriter)
    (c1 c2 n m : Nat) :
    funTextOf (Ontology.to_functional o
        (some { w with g := { w.g with counter := c1 } })) =
      funTextOf (Ontology.to_functional o
        (some { w with g := { w.g with counter := c2 } })) ∧
    Ontology.to_rdf o (freshG m) = shiftResult n m (Ontology.to_rdf o (freshG n)) :=
  ⟨to_functional_counter_independent o w c1 c2, to_rdf_shift o n m⟩

/-- Claim C9: a Document built from exactly one positional list argument and no
ontology keyword keeps its ontology slot empty; functional-syntax rendering of such a
document substitutes a fresh empty anonymous Ontology at render time — it behaves
exactly as if the slot held `Ontology()` — and succeeds, whereas RDF rendering
performs no substitution and fails on the unpopulated slot. -/
theorem document_list_init_renderers (l : List PrefixM)
    (w? : Option FunctionalWriter) (g : Graph) :
    (docInit [DocInitArg.listA l] none).ontology = none ∧
    docToFunctional (docInit [DocInitArg.listA l] none) w? =
      docToFunctional
        { docInit [DocInitArg.listA l] none with ontology := some ontologyEmpty } w? ∧
    (docToFunctional (docInit [DocInitArg.listA l] none) w?).isOk = true ∧
    docToRdf (docInit [DocInitArg.listA l] none) g = .error .noneAttribute :=
  ⟨rfl, rfl, rfl, rfl⟩

/-- Claim C10: the `imports` builder appends exactly one Import per call and returns
the aggregate: for an Ontology argument the Import wraps the ontology's identifier
value as extracted at call time — Python `None` when absent, never the aggregate
itself — and for any other argument it wraps a fresh IRI built from the argument's
string form; all other slots are untouched. -/
theorem imports_builder_appends (o o2 : Ontology) (s : String) :
    Ontology.imports o (.ontA o2) =
      { o with directlyImportsDocuments := o.directlyImportsDocuments ++
          [match o2.iri with
           | some i => ImportVal.iriV i
           | none => ImportVal.noneV] } ∧
    (∀ x, (match o2.iri with
           | some i => ImportVal.iriV i
           | none => ImportVal.noneV) ≠ ImportVal.ont x) ∧
    Ontology.imports o (.strA s) =
      { o with directlyImportsDocuments := o.directlyImportsDocuments ++
          [ImportVal.iriV ⟨ s⟩] } := by
  refine ⟨rfl, ?_, rfl⟩
  intro x
  cases o2.iri <;> simp

/-- Witness for C10: the builder applied to an identifier-less ontology and to a plain
string. -/
theorem imports_builder_appends_witness :
    Ontology.imports ontologyEmpty (.ontA ontologyEmpty) =
      { ontologyEmpty with directlyImportsDocuments := [ImportVal.noneV] } ∧
    Ontology.imports ontologyEmpty (.strA "http://x/i") =
      { ontologyEmpty with directlyImportsDocuments :=
          [ImportVal.iriV ⟨ "http://x/i"⟩] } := by
  have h := imports_builder_appends ontologyEmpty ontologyEmpty "http://x/i"
  exact ⟨h.1, h.2.2⟩
